import Mathlib

/-
Verification development for the anni streaming read-through audio cache
(src/anni-provider/src/cache.rs).  The Rust code is shallowly embedded:
machine integers become `Nat`, the concurrent maps become association lists,
the LRU recency map becomes a list with the most-recently-used key at the
head, and fallible operations return explicit outcome values.  Each
definition mirrors one function of the source file; comments cite the
corresponding lines.
-/

namespace AnniCache

/-- Modelled from the spec: the `Range` type of anni-provider is not among the
extracted sources; per the spec it is `{start: uint64, end: Option<uint64>}`,
half-open with `end` exclusive.  `end` is a Lean keyword, so the field is
named `stop`. -/
structure Range where
  start : Nat
  stop : Option Nat
deriving DecidableEq, Repr

/-- Modelled from the spec: `FULL = {0, None}`. -/
def Range.FULL : Range := ⟨0, none⟩

/-- Modelled from the spec: `length() = end - start` if `end` set else unbounded. -/
def Range.len (r : Range) : Option Nat := r.stop.map (fun e => e - r.start)

/-- Modelled from the spec: `AudioInfo = {extension, duration_seconds, size}`
(declared in anni-provider outside the extracted sources). -/
structure AudioInfo where
  extension : String
  duration : Nat
  size : Nat
deriving DecidableEq, Repr

/-- `CacheItem` (cache.rs lines 207-213).  The `RwLock`-protected scalars
`size` and `cached` become plain fields updated by explicit state passing. -/
structure CacheItem where
  path : String
  ext : String
  size : Nat
  cached : Bool
  duration : Nat
deriving DecidableEq, Repr

/-- `CacheItem::new` (cache.rs lines 216-229). -/
def CacheItem.new (path : String) (info : AudioInfo) (cached : Bool) : CacheItem :=
  ⟨path, info.extension, info.size, cached, info.duration⟩

/-- `CachePool` (cache.rs lines 90-100).  `cache : DashMap<String, Arc<CacheItem>>`
is an association list; `last_used : RwLock<LruCache<String, Arc<Mutex<u8>>>>`
is the list of keys ordered most-recently-used first (the per-key mutex only
serves as the single-flight barrier and carries no data). -/
structure CachePool where
  root : String
  maxSize : Nat
  cache : List (String × CacheItem)
  lastUsed : List String
deriving DecidableEq, Repr

/-- `LruCache::put`: insert `key` as most-recently-used, replacing any
previous occurrence. -/
def lruPut (key : String) (l : List String) : List String :=
  key :: l.filter (fun k => k != key)

/-- `LruCache::get` for its touch effect: move `key` to most-recently-used.
On the hit path the key is present, so this coincides with `put`. -/
def lruTouch (key : String) (l : List String) : List String :=
  key :: l.filter (fun k => k != key)

/-- `LruCache::pop_lru`: remove and return the least-recently-used entry
(the last element, since the head is most-recently-used). -/
def lruPopBack (l : List String) : Option (String × List String) :=
  match l.reverse with
  | [] => none
  | v :: rest => some (v, rest.reverse)

/-- `CachePool::space_used` (cache.rs lines 190-196): the sum of the sizes of
the registered items. -/
def CachePool.space_used (p : CachePool) : Nat :=
  (p.cache.map (fun i => i.2.size)).sum

/-- `CachePool::has_cache` (cache.rs lines 186-188): membership in `last_used`. -/
def CachePool.has_cache (p : CachePool) (key : String) : Bool :=
  p.lastUsed.contains key

/-- `CachePool::remove` (cache.rs lines 181-184): drop the key from both maps
(the removed item's `cached` flag is flipped to false so its file is deleted
on last drop; the item leaves the model here). -/
def CachePool.remove (p : CachePool) (key : String) : CachePool :=
  { p with cache := p.cache.filter (fun i => i.1 != key),
           lastUsed := p.lastUsed.filter (fun k => k != key) }

/-- Outcome of the awaited `on_miss` future together with the subsequent
`File::create`: the upstream call may fail (`on_miss.await?`, line 125), the
file creation may fail (line 129), or both succeed yielding the `AudioInfo`. -/
inductive MissResult where
  | ok (info : AudioInfo)
  | upstreamErr
  | fileCreateErr
deriving DecidableEq, Repr

/-- Result of one `fetch`: the produced item, a propagated error (`?`), a
panic of one of the `unwrap` calls, or a deadlock — `fetch` never returns and
the recorded state is the one at the hang point. -/
inductive FetchOut where
  | ok (item : CacheItem)
  | err
  | panic
  | deadlock
deriving DecidableEq, Repr

structure FetchResult where
  state : CachePool
  out : FetchOut
  missAwaited : Bool
  evicted : Option String
deriving DecidableEq, Repr

/-- `CachePool::fetch` (cache.rs lines 112-179), sequential embedding.
Miss path (`!self.has_cache(&key)`): the key is `put` into `last_used`
(line 122), then `on_miss` is awaited (line 125) and the file created
(line 129); on either failure the `?` operator propagates the error — the key
is NOT removed from `last_used`.  On success, if `space_used() > max_size`
(computed before inserting the new item, lines 137-144) the fetch takes the
`last_used` write guard (line 139), pops the LRU victim (line 140) and calls
`self.remove` while still holding that guard; `remove` strips the victim
from the items map (line 182) and then re-acquires the same non-reentrant
`parking_lot` write lock (line 183): the fetch deadlocks and never returns.
The recorded state is the hang point — victim popped and unregistered, the
new item never inserted.  (`pop_lru().unwrap()` on an empty recency map
would panic, but the current key is always present here.)  Below budget, the
new item is inserted (line 147) and returned.
Hit path: the key is touched in `last_used` via `get(..).unwrap()` (line 172)
and the item is looked up with `cache.get(&key).unwrap()` (line 173); a
failing lookup is an `unwrap` panic. -/
def CachePool.fetch (p : CachePool) (key : String) (miss : MissResult) : FetchResult :=
  if p.has_cache key = false then
    let p1 : CachePool := { p with lastUsed := lruPut key p.lastUsed }
    match miss with
    | .upstreamErr => ⟨p1, .err, true, none⟩
    | .fileCreateErr => ⟨p1, .err, true, none⟩
    | .ok info =>
      let item := CacheItem.new (p1.root ++ "/" ++ key) info false
      if p1.space_used > p1.maxSize then
        match lruPopBack p1.lastUsed with
        | some (victim, rest) =>
          ⟨{ p1 with cache := p1.cache.filter (fun i => i.1 != victim), lastUsed := rest },
            .deadlock, true, some victim⟩
        | none => ⟨p1, .panic, true, none⟩
      else
        ⟨{ p1 with cache := (key, item) :: p1.cache.filter (fun i => i.1 != key) },
          .ok item, true, none⟩
  else
    let p1 : CachePool := { p with lastUsed := lruTouch key p.lastUsed }
    match p.cache.lookup key with
    | some item => ⟨p1, .ok item, false, none⟩
    | none => ⟨p1, .panic, false, none⟩

/-! ### Interleaving model of the miss-detection race (cache.rs lines 118-122)

`has_cache` reads `last_used` under a read lock (line 187) and the barrier is
inserted later under a separate write lock (line 122).  Each lock-protected
access is one atomic step; two `fetch` tasks for the same key may interleave
between the check and the insert. -/

inductive TaskPhase where
  | start
  | checked (hit : Bool)
  | inserted
  | fetching
  | done
deriving DecidableEq, Repr

structure RaceState where
  lastUsed : List String
  t1 : TaskPhase
  t2 : TaskPhase
deriving DecidableEq, Repr

/-- One atomic step of a single `fetch` task for `key`:
`start` → evaluate `has_cache` (read lock, line 118);
`checked false` → `last_used.write().put(key, barrier)` (line 122);
`inserted` → begin awaiting its own `on_miss` future (line 125);
`checked true` → hit path, no upstream fetch. -/
def taskStep (key : String) (lu : List String) (ph : TaskPhase) : List String × TaskPhase :=
  match ph with
  | .start => (lu, .checked (lu.contains key))
  | .checked false => (lruPut key lu, .inserted)
  | .checked true => (lu, .done)
  | .inserted => (lu, .fetching)
  | .fetching => (lu, .done)
  | .done => (lu, .done)

def raceStep (key : String) (s : RaceState) (pickFirst : Bool) : RaceState :=
  if pickFirst then
    let r := taskStep key s.lastUsed s.t1
    { s with lastUsed := r.1, t1 := r.2 }
  else
    let r := taskStep key s.lastUsed s.t2
    { s with lastUsed := r.1, t2 := r.2 }

/-- Run two concurrent `fetch` tasks under a schedule (`true` picks task 1). -/
def raceRun (key : String) (sched : List Bool) (s : RaceState) : RaceState :=
  sched.foldl (raceStep key) s

/-- Number of upstream fetches currently being awaited for the key. -/
def inFlight (s : RaceState) : Nat :=
  (if s.t1 = .fetching then 1 else 0) + (if s.t2 = .fetching then 1 else 0)

/-! ### Tail-following reader (`CacheItemReader::poll_read`, cache.rs lines 315-373) -/

structure ReaderState where
  filled : Nat
  timerMillis : Option Nat
deriving DecidableEq, Repr

inductive PollOut where
  | yielded (n : Nat)
  | eof
  | pendingTimerWait
  | pendingImmediate
  | pendingTimerSet
  | ioError
deriving DecidableEq, Repr

/-- Read mode of `poll_read` (lines 334-372): `readResult` is the outcome of
the underlying `File::poll_read`, carrying the number of freshly added bytes. -/
def poll_read_ready (cached : Bool) (size : Nat) (st : ReaderState)
    (readResult : Except Unit Nat) : ReaderState × PollOut :=
  match readResult with
  | .error _ => (st, .ioError)
  | .ok n =>
    if 0 < n then ({ st with filled := st.filled + n }, .yielded n)
    else if cached then
      if st.filled ≠ size then (st, .pendingImmediate)
      else (st, .eof)
    else ({ st with timerMillis := some 100 }, .pendingTimerSet)

/-- Full `poll_read` (lines 315-373): wait mode first polls a pending timer
(lines 322-332), then read mode proceeds. -/
def poll_read (cached : Bool) (size : Nat) (st : ReaderState)
    (timerElapsed : Bool) (readResult : Except Unit Nat) : ReaderState × PollOut :=
  match st.timerMillis with
  | some _ =>
    if timerElapsed then poll_read_ready cached size { st with timerMillis := none } readResult
    else (st, .pendingTimerWait)
  | none => poll_read_ready cached size st readResult

/-- Byte-level model of `to_audio_resource_reader` (cache.rs lines 270-291)
over the final byte sequence of the cached object: `copy(reader.take(start),
sink)` discards the first `start` bytes and `reader.take(length)` caps the
remainder when the range is bounded. -/
def to_audio_resource_reader_bytes (content : List Nat) (r : Range) : List Nat :=
  let afterSkip := content.drop r.start
  match r.len with
  | some len => afterSkip.take len
  | none => afterSkip

/-- `impl Drop for CacheItem` (cache.rs lines 294-305): returns
(file removed, logged error).  The file is removed only when `cached` is
false; a removal failure is logged and swallowed. -/
def cache_item_drop (cached : Bool) (removeFile : Except String Unit) : Bool × Option String :=
  if cached = false then
    match removeFile with
    | .ok _ => (true, none)
    | .error e => (false, some e)
  else (false, none)

/-! ### Key hashing (`do_hash`, cache.rs lines 199-205)

`do_hash` delegates to the external `sha2` crate; SHA-256 is embedded here
per its public standard (FIPS 180-4), which that crate implements, with
32-bit words as `Nat` reduced modulo `2 ^ 32`. -/

/-- Truncation to a 32-bit word. -/
def w32 (x : Nat) : Nat := x % 4294967296

/-- Right rotation of a 32-bit word. -/
def rotr32 (n x : Nat) : Nat := w32 (x / 2 ^ n + x * 2 ^ (32 - n))

def sha_ch (e f g : Nat) : Nat := (e &&& f) ^^^ ((4294967295 - w32 e) &&& g)

def sha_maj (a b c : Nat) : Nat := (a &&& b) ^^^ (a &&& c) ^^^ (b &&& c)

def sha_bigS0 (a : Nat) : Nat := rotr32 2 a ^^^ rotr32 13 a ^^^ rotr32 22 a

def sha_bigS1 (e : Nat) : Nat := rotr32 6 e ^^^ rotr32 11 e ^^^ rotr32 25 e

def sha_smallS0 (x : Nat) : Nat := rotr32 7 x ^^^ rotr32 18 x ^^^ (x / 2 ^ 3)

def sha_smallS1 (x : Nat) : Nat := rotr32 17 x ^^^ rotr32 19 x ^^^ (x / 2 ^ 10)

/-- The 64 SHA-256 round constants (FIPS 180-4 section 4.2.2, in decimal). -/
def shaK : List Nat :=
  [1116352408, 1899447441, 3049323471, 3921009573, 961987163, 1508970993,
   2453635748, 2870763221, 3624381080, 310598401, 607225278, 1426881987,
   1925078388, 2162078206, 2614888103, 3248222580, 3835390401, 4022224774,
   264347078, 604807628, 770255983, 1249150122, 1555081692, 1996064986,
   2554220882, 2821834349, 2952996808, 3210313671, 3336571891, 3584528711,
   113926993, 338241895, 666307205, 773529912, 1294757372, 1396182291,
   1695183700, 1986661051, 2177026350, 2456956037, 2730485921, 2820302411,
   3259730800, 3345764771, 3516065817, 3600352804, 4094571909, 275423344,
   430227734, 506948616, 659060556, 883997877, 958139571, 1322822218,
   1537002063, 1747873779, 1955562222, 2024104815, 2227730452, 2361852424,
   2428436474, 2756734187, 3204031479, 3329325298]

/-- Working state: eight 32-bit words. -/
structure ShaState where
  a : Nat
  b : Nat
  c : Nat
  d : Nat
  e : Nat
  f : Nat
  g : Nat
  h : Nat
deriving DecidableEq, Repr

def shaInit : ShaState :=
  ⟨1779033703, 3144134277, 1013904242, 2773480762,
   1359893119, 2600822924, 528734635, 1541459225⟩

/-- Big-endian 4-byte groups of a block as 32-bit words. -/
def toWords : List Nat → List Nat
  | a :: b :: c :: d :: rest => (a * 16777216 + b * 65536 + c * 256 + d) :: toWords rest
  | _ => []

/-- Extend the 16 block words to the 64-entry message schedule. -/
def shaExtend (w : List Nat) : List Nat :=
  (List.range 48).foldl
    (fun w _ =>
      w ++ [w32 (sha_smallS1 (w.getD (w.length - 2) 0) + w.getD (w.length - 7) 0 +
                 sha_smallS0 (w.getD (w.length - 15) 0) + w.getD (w.length - 16) 0)])
    w

/-- One compression round. -/
def shaRound (st : ShaState) (ki wi : Nat) : ShaState :=
  let t1 := w32 (st.h + sha_bigS1 st.e + sha_ch st.e st.f st.g + ki + wi)
  let t2 := w32 (sha_bigS0 st.a + sha_maj st.a st.b st.c)
  ⟨w32 (t1 + t2), st.a, st.b, st.c, w32 (st.d + t1), st.e, st.f, st.g⟩

/-- Compress one 64-byte block into the running hash state. -/
def shaCompress (st : ShaState) (block : List Nat) : ShaState :=
  let w := shaExtend (toWords block)
  let r := (shaK.zip w).foldl (fun s p => shaRound s p.1 p.2) st
  ⟨w32 (st.a + r.a), w32 (st.b + r.b), w32 (st.c + r.c), w32 (st.d + r.d),
   w32 (st.e + r.e), w32 (st.f + r.f), w32 (st.g + r.g), w32 (st.h + r.h)⟩

/-- Big-endian 8-byte encoding of the message bit length. -/
def lenBytes8 (n : Nat) : List Nat :=
  [n / 2 ^ 56 % 256, n / 2 ^ 48 % 256, n / 2 ^ 40 % 256, n / 2 ^ 32 % 256,
   n / 2 ^ 24 % 256, n / 2 ^ 16 % 256, n / 2 ^ 8 % 256, n % 256]

/-- SHA-256 padding: a `0x80` byte, zeros up to 56 mod 64, then the bit length. -/
def shaPad (msg : List Nat) : List Nat :=
  msg ++ 128 :: List.replicate ((119 - msg.length % 64) % 64) 0 ++ lenBytes8 (8 * msg.length)

/-- Split a padded message into 64-byte blocks. -/
def shaBlocks (l : List Nat) : List (List Nat) :=
  if h : l = [] then []
  else
    have : (l.drop 64).length < l.length := by
      cases l with
      | nil => exact absurd rfl h
      | cons x xs => simp [List.length_drop]; omega
    l.take 64 :: shaBlocks (l.drop 64)
termination_by l.length

/-- Big-endian bytes of a 32-bit word. -/
def wordBytes (w : Nat) : List Nat :=
  [w / 2 ^ 24 % 256, w / 2 ^ 16 % 256, w / 2 ^ 8 % 256, w % 256]

/-- SHA-256 digest (32 bytes) of a byte string. -/
def sha256 (msg : List Nat) : List Nat :=
  let st := (shaBlocks (shaPad msg)).foldl shaCompress shaInit
  wordBytes st.a ++ wordBytes st.b ++ wordBytes st.c ++ wordBytes st.d ++
  wordBytes st.e ++ wordBytes st.f ++ wordBytes st.g ++ wordBytes st.h

/-- The lowercase hex alphabet used by `hex::encode`. -/
def hexChars : List Char := "0123456789abcdef".toList

def hexDigit (n : Nat) : Char := hexChars.getD (n % 16) '0'

/-- `hex::encode`: two lowercase hex digits per byte, high nibble first. -/
def hexEncode (bytes : List Nat) : List Char :=
  bytes.foldr (fun b acc => hexDigit (b / 16) :: hexDigit b :: acc) []

/-- UTF-8 bytes of a string (`Sha256::update` consumes the key's bytes). -/
def strBytes (s : String) : List Nat := s.toUTF8.toList.map (fun b => b.toNat)

/-- `do_hash` (cache.rs lines 199-205): lowercase hex of the SHA-256 digest. -/
def do_hash (key : String) : String := String.mk (hexEncode (sha256 (strBytes key)))

/-- The `{:02}` format of `format!` on a `u8`: zero-padded to two digits
(values of three digits keep all three). -/
def format02 (n : Nat) : String := if n < 10 then "0" ++ toString n else toString n

/-- The format-string argument of `do_hash` in `Cache::get_audio`
(cache.rs line 63). -/
def audioKeySource (albumId : String) (discId trackId : Nat) : String :=
  albumId ++ "/" ++ format02 discId ++ "/" ++ format02 trackId

/-- The cache key as computed by `Cache::get_audio` (cache.rs lines 61-63). -/
def get_audio_key (albumId : String) (discId trackId : Nat) : String :=
  do_hash (audioKeySource albumId discId trackId)

/-- The cache key as the spec words it: the 64-char lowercase hex encoding of
the SHA-256 digest of the string `album/DD/TT` with disc and track
zero-padded to two digits. -/
def specCacheKey (albumId : String) (discId trackId : Nat) : String :=
  String.mk (hexEncode (sha256 (strBytes
    (albumId ++ "/" ++ format02 discId ++ "/" ++ format02 trackId))))

/-- The three ranges appearing in one `Cache::get_audio` call
(cache.rs lines 54-73): the key, the range passed to the upstream provider's
`get_audio` inside the miss future, and the client's range forwarded to
`pool.fetch` for reader assembly. -/
structure GetAudioCall where
  key : String
  upstreamRange : Range
  clientRange : Range
deriving DecidableEq, Repr

/-- `Cache::get_audio` (cache.rs lines 54-73): the miss future is built with
`Range::FULL`; the client's range is only forwarded to `fetch`. -/
def cache_get_audio (albumId : String) (discId trackId : Nat) (range : Range) : GetAudioCall :=
  ⟨get_audio_key albumId discId trackId, Range.FULL, range⟩

/-! ### Theorems -/

/-- C1: on a cold key whose miss path fails (the awaited miss future returns
an error, or creating the backing file fails), `fetch` does propagate the
error and registers no item — but, contrary to the claim, the key is NOT
removed from `last_used`: starting from the empty pool, after a failed miss
for "k" the pool still reports `has_cache "k"`, so the state is not the one
from before the call. -/
theorem C1_failed_miss_leaves_key_in_recency :
    (CachePool.fetch ⟨"r", 100, [], []⟩ "k" .upstreamErr).out = .err ∧
    (CachePool.fetch ⟨"r", 100, [], []⟩ "k" .upstreamErr).state.cache = [] ∧
    (CachePool.fetch ⟨"r", 100, [], []⟩ "k" .upstreamErr).state.has_cache "k" = true ∧
    (CachePool.fetch ⟨"r", 100, [], []⟩ "k" .fileCreateErr).state.has_cache "k" = true ∧
    (CachePool.fetch ⟨"r", 100, [], []⟩ "k" .fileCreateErr).state ≠ ⟨"r", 100, [], []⟩ := by
  decide

/-- C2: single-flight fails.  The `has_cache` check (read lock) and the
barrier insertion (separate write lock) are distinct atomic steps, so two
concurrent `fetch` calls for the same cold key can both observe a miss and
both proceed to await their own miss future: it is not the case that every
schedule keeps at most one upstream fetch in flight.  The schedule
check₁, check₂, insert₁, await₁, insert₂, await₂ reaches `inFlight = 2`. -/
theorem C2_single_flight_violated :
    ¬ (∀ sched : List Bool,
        inFlight (raceRun "k" sched ⟨[], .start, .start⟩) ≤ 1) := by
  intro h
  have h2 := h [true, false, true, true, false, false]
  revert h2
  decide

/-- C3: the claim presupposes that a fetch whose pre-insertion sum exceeds
`max_size` evicts one LRU victim and returns with the bounded sum — but such
a fetch never returns at all.  With `max_size = 100`, two below-budget miss
fetches admit sizes 10 ("a") and 200 ("b") and leave `space_used = 210 > 100`;
the next miss fetch ("c", size 10) enters the eviction block, which holds the
`last_used` write guard across `remove` and re-acquires the same
non-reentrant lock: the fetch deadlocks after popping the victim and before
inserting "c", so no post-return state with the claimed bound is ever
produced. -/
theorem C3_eviction_fetch_deadlocks :
    (CachePool.fetch (CachePool.fetch ⟨"r", 100, [], []⟩
        "a" (.ok ⟨"flac", 0, 10⟩)).state
        "b" (.ok ⟨"flac", 0, 200⟩)).state.space_used = 210 ∧
    100 < 210 ∧
    (CachePool.fetch (CachePool.fetch (CachePool.fetch ⟨"r", 100, [], []⟩
        "a" (.ok ⟨"flac", 0, 10⟩)).state
        "b" (.ok ⟨"flac", 0, 200⟩)).state
        "c" (.ok ⟨"flac", 0, 10⟩)).out = .deadlock ∧
    (CachePool.fetch (CachePool.fetch (CachePool.fetch ⟨"r", 100, [], []⟩
        "a" (.ok ⟨"flac", 0, 10⟩)).state
        "b" (.ok ⟨"flac", 0, 200⟩)).state
        "c" (.ok ⟨"flac", 0, 10⟩)).state.cache.lookup "c" = none := by
  decide

/-- C4: one read-mode step of `CacheItemReader::poll_read`.  A read adding
`n + 1 ≥ 1` bytes increments `filled` by exactly that amount and yields the
bytes; a read adding 0 bytes signals EOF exactly when the item is cached and
`filled = size`; if cached but `filled ≠ size` it re-schedules immediately
with the state unchanged (no delay armed); if not cached it arms a 100 ms
timer before the next attempt. -/
theorem C4_poll_read_zero_byte_step :
    (∀ c s f n, poll_read c s ⟨f, none⟩ true (.ok (n + 1)) =
        (⟨f + (n + 1), none⟩, .yielded (n + 1))) ∧
    (∀ c s f, ((poll_read c s ⟨f, none⟩ true (.ok 0)).2 = .eof ↔ c = true ∧ f = s)) ∧
    (∀ s f, ((poll_read true s ⟨f, none⟩ true (.ok 0)).2 = .pendingImmediate ↔ f ≠ s)) ∧
    (∀ s f, (poll_read true s ⟨f, none⟩ true (.ok 0)).1 = ⟨f, none⟩) ∧
    (∀ s f, poll_read false s ⟨f, none⟩ true (.ok 0) = (⟨f, some 100⟩, .pendingTimerSet)) := by
  refine ⟨fun c s f n => by simp [poll_read, poll_read_ready], ?_, ?_, ?_, ?_⟩
  · intro c s f
    cases c <;> by_cases hf : f = s <;>
      simp [poll_read, poll_read_ready, hf]
  · intro s f
    by_cases hf : f = s <;> simp [poll_read, poll_read_ready, hf]
  · intro s f
    by_cases hf : f = s <;> simp [poll_read, poll_read_ready, hf]
  · intro s f
    simp [poll_read, poll_read_ready]

/-- C6: the `Drop` contract of `CacheItem`.  A completed (`cached = true`)
item keeps its file and logs nothing; the file is actually removed exactly
when the item is not cached and the removal succeeds; a failing removal on a
non-cached item is logged and swallowed (the drop still returns normally,
with the error only recorded in the log component). -/
theorem C6_drop_removes_iff_not_cached :
    (∀ r, cache_item_drop true r = (false, none)) ∧
    (∀ c r, ((cache_item_drop c r).1 = true ↔ c = false ∧ r = .ok ())) ∧
    (∀ e, cache_item_drop false (.error e) = (false, some e)) := by
  refine ⟨fun r => by simp [cache_item_drop], ?_, fun e => by simp [cache_item_drop]⟩
  intro c r
  cases c <;> cases r <;> simp [cache_item_drop]

/-- C9: `Cache::get_audio` always builds the miss future with `Range::FULL`,
never the client's range (which is only forwarded for reader assembly), and
`CachePool::fetch` awaits the miss future exactly on a miss
(`has_cache = false`). -/
theorem C9_upstream_always_full_range :
    (∀ a d t r, (cache_get_audio a d t r).upstreamRange = Range.FULL ∧
        (cache_get_audio a d t r).clientRange = r ∧
        (cache_get_audio a d t r).key = get_audio_key a d t) ∧
    (∀ p key m, ((CachePool.fetch p key m).missAwaited = true ↔ p.has_cache key = false)) := by
  refine ⟨fun a d t r => ⟨rfl, rfl, rfl⟩, ?_⟩
  intro p key m
  by_cases h : p.has_cache key = false
  · cases m <;> simp [CachePool.fetch, h] <;>
      split <;> first
        | rfl
        | (split <;> rfl)
  · cases hl : p.cache.lookup key <;> simp [CachePool.fetch, h, hl]

/-- Projection fact used when unfolding `fetch`: touching `last_used` does not
change the registered items, hence not the used space. -/
theorem space_used_set_lastUsed (p : CachePool) (l : List String) :
    ({ p with lastUsed := l } : CachePool).space_used = p.space_used := rfl

/-- C5: over the final byte sequence of a cached object of length `S`, the
reader assembled for `range = {s, some e}` with `s ≤ e ≤ S` consists of
discarding exactly the first `s` bytes and yields exactly `e - s` bytes equal
to bytes `[s, e)` of the upstream object; with an unbounded range it yields
everything from `s` on. -/
theorem C5_range_reader_bytes (content : List Nat) (s e : Nat)
    (h1 : s ≤ e) (h2 : e ≤ content.length) :
    (to_audio_resource_reader_bytes content ⟨s, some e⟩).length = e - s ∧
    to_audio_resource_reader_bytes content ⟨s, some e⟩ = (content.take e).drop s ∧
    to_audio_resource_reader_bytes content ⟨s, none⟩ = content.drop s := by
  refine ⟨?_, ?_, rfl⟩
  · show ((content.drop s).take (e - s)).length = e - s
    simp [List.length_take, List.length_drop]
    omega
  · show (content.drop s).take (e - s) = (content.take e).drop s
    exact (List.drop_take e s content).symm

/-- Witness for `C5_range_reader_bytes` on a five-byte object with
`range = {1, some 3}`. -/
theorem C5_range_reader_bytes_witness :
    1 ≤ 3 ∧ 3 ≤ ([10, 11, 12, 13, 14] : List Nat).length ∧
    ((to_audio_resource_reader_bytes [10, 11, 12, 13, 14] ⟨1, some 3⟩).length = 3 - 1 ∧
      to_audio_resource_reader_bytes [10, 11, 12, 13, 14] ⟨1, some 3⟩ =
        (([10, 11, 12, 13, 14] : List Nat).take 3).drop 1 ∧
      to_audio_resource_reader_bytes [10, 11, 12, 13, 14] ⟨1, none⟩ =
        ([10, 11, 12, 13, 14] : List Nat).drop 1) :=
  ⟨by decide, by decide, C5_range_reader_bytes [10, 11, 12, 13, 14] 1 3 (by decide) (by decide)⟩

theorem string_mk_length (l : List Char) : (String.mk l).length = l.length := rfl

theorem string_mk_toList (l : List Char) : (String.mk l).toList = l := rfl

theorem hexEncode_cons (b : Nat) (bs : List Nat) :
    hexEncode (b :: bs) = hexDigit (b / 16) :: hexDigit b :: hexEncode bs := rfl

theorem hexEncode_length (bs : List Nat) : (hexEncode bs).length = 2 * bs.length := by
  induction bs with
  | nil => rfl
  | cons b bs ih => rw [hexEncode_cons]; simp [ih]; omega

theorem sha256_length (msg : List Nat) : (sha256 msg).length = 32 := by
  simp [sha256, wordBytes]

theorem hexDigit_mem (n : Nat) : hexDigit n ∈ hexChars := by
  have h : n % 16 < 16 := Nat.mod_lt _ (by norm_num)
  unfold hexDigit
  rw [List.getD_eq_getElem hexChars '0'
    (by have hl : hexChars.length = 16 := rfl; omega)]
  exact List.getElem_mem _

theorem mem_hexEncode {c : Char} {bs : List Nat} (h : c ∈ hexEncode bs) : c ∈ hexChars := by
  induction bs with
  | nil => simp [hexEncode] at h
  | cons b bs ih =>
    rw [hexEncode_cons] at h
    simp only [List.mem_cons] at h
    rcases h with rfl | rfl | h
    · exact hexDigit_mem _
    · exact hexDigit_mem _
    · exact ih h

/-- C7: the cache key of `Cache::get_audio` equals the spec's description —
the hex encoding of the SHA-256 digest of `album/DD/TT` with disc and track
zero-padded to two digits (the key computation is a pure function, so equal
inputs give equal keys by construction) — and every key is 64 characters
long, all of them lowercase hexadecimal digits. -/
theorem C7_cache_key_hex_sha256 :
    (∀ a d t, get_audio_key a d t = specCacheKey a d t) ∧
    (∀ a d t, (get_audio_key a d t).length = 64) ∧
    (∀ a d t, (get_audio_key a d t).toList.all (fun c => hexChars.contains c) = true) := by
  refine ⟨fun a d t => rfl, fun a d t => ?_, fun a d t => ?_⟩
  · show (String.mk (hexEncode (sha256 (strBytes (audioKeySource a d t))))).length = 64
    rw [string_mk_length, hexEncode_length, sha256_length]
  · show (String.mk (hexEncode (sha256 (strBytes (audioKeySource a d t))))).toList.all
      (fun c => hexChars.contains c) = true
    rw [string_mk_toList, List.all_eq_true]
    intro c hc
    exact List.elem_iff.mpr (mem_hexEncode hc)

/-- The LRU victim popped from a recency list whose most-recently-used head
is `a` lies among the remaining keys whenever there are any. -/
theorem lruPopBack_cons_mem {a : String} {f : List String} (hf : f ≠ [])
    {v : String} {rest : List String} (h : lruPopBack (a :: f) = some (v, rest)) : v ∈ f := by
  cases hrev : f.reverse with
  | nil => exact absurd (List.reverse_eq_nil_iff.mp hrev) hf
  | cons x xs =>
    have hx : x ∈ f := List.mem_reverse.mp (hrev ▸ List.mem_cons_self x xs)
    rw [lruPopBack, List.reverse_cons, hrev] at h
    simp only [List.cons_append, Option.some.injEq, Prod.mk.injEq] at h
    exact h.1 ▸ hx

/-- C8: under the pool invariant that every registered key is tracked in the
recency map, a miss fetch that triggers eviction never evicts the key it is
inserting: that key was just made most-recently-used, and the over-budget
condition guarantees another key is present to be the LRU victim. -/
theorem C8_eviction_never_inserted_key (p : CachePool) (key : String) (info : AudioInfo)
    (hsub : p.cache.all (fun i => p.lastUsed.contains i.1) = true)
    (hmiss : p.has_cache key = false) :
    (CachePool.fetch p key (.ok info)).evicted ≠ some key := by
  by_cases hsp : ({ p with lastUsed := lruPut key p.lastUsed } : CachePool).space_used >
      p.maxSize
  · have hc : p.cache ≠ [] := by
      intro h0
      rw [space_used_set_lastUsed] at hsp
      rw [CachePool.space_used, h0] at hsp
      simp at hsp
    obtain ⟨i, hi⟩ : ∃ i, i ∈ p.cache := by
      cases hcc : p.cache with
      | nil => exact absurd hcc hc
      | cons j rest => exact ⟨j, hcc ▸ List.mem_cons_self j rest⟩
    have hi1 : p.lastUsed.contains i.1 = true := List.all_eq_true.mp hsub i hi
    have hi1mem : i.1 ∈ p.lastUsed := List.elem_iff.mp hi1
    have hne : i.1 ≠ key := by
      intro hk
      have hct : p.lastUsed.contains key = true := List.elem_iff.mpr (hk ▸ hi1mem)
      rw [CachePool.has_cache, hct] at hmiss
      simp at hmiss
    have hf : i.1 ∈ p.lastUsed.filter (fun k => k != key) :=
      List.mem_filter.mpr ⟨hi1mem, bne_iff_ne.mpr hne⟩
    have hfne : p.lastUsed.filter (fun k => k != key) ≠ [] := List.ne_nil_of_mem hf
    simp only [CachePool.fetch, hmiss]
    rw [if_pos trivial, if_pos hsp]
    cases hpop : lruPopBack (lruPut key p.lastUsed) with
    | none => simp
    | some vr =>
      obtain ⟨v, rest⟩ := vr
      have hv : v ∈ p.lastUsed.filter (fun k => k != key) :=
        lruPopBack_cons_mem hfne hpop
      have hvne : v ≠ key := bne_iff_ne.mp (List.mem_filter.mp hv).2
      simp only [ne_eq, Option.some.injEq]
      exact hvne
  · simp only [CachePool.fetch, hmiss]
    rw [if_pos trivial, if_neg hsp]
    simp

/-- Witness for `C8_eviction_never_inserted_key`: a pool holding one
oversized item "b" (size 10, `max_size` 5) admits "a"; the victim is "b",
not "a". -/
theorem C8_eviction_never_inserted_key_witness :
    ([("b", ⟨"r/b", "flac", 10, true, 0⟩)] : List (String × CacheItem)).all
      (fun i => (["b"] : List String).contains i.1) = true ∧
    (⟨"r", 5, [("b", ⟨"r/b", "flac", 10, true, 0⟩)], ["b"]⟩ : CachePool).has_cache "a" = false ∧
    (CachePool.fetch ⟨"r", 5, [("b", ⟨"r/b", "flac", 10, true, 0⟩)], ["b"]⟩
        "a" (.ok ⟨"flac", 0, 1⟩)).evicted ≠ some "a" :=
  ⟨by decide, by decide,
    C8_eviction_never_inserted_key ⟨"r", 5, [("b", ⟨"r/b", "flac", 10, true, 0⟩)], ["b"]⟩
      "a" ⟨"flac", 0, 1⟩ (by decide) (by decide)⟩

/-- C10: the hit-path `unwrap`s of `fetch` are reachable with a `None`.
After a failed miss for "k" the key is still in `last_used` (so a second
`fetch` takes the hit path) but "k" has no entry in the items map, and the
second `fetch` panics on `self.cache.get(&key).unwrap()` — contradicting the
claim that the hit path never panics in any reachable state. -/
theorem C10_hit_path_unwrap_panics :
    (CachePool.fetch ⟨"r", 100, [], []⟩ "k" .upstreamErr).state.has_cache "k" = true ∧
    (CachePool.fetch (CachePool.fetch ⟨"r", 100, [], []⟩ "k" .upstreamErr).state
        "k" .upstreamErr).out = .panic := by
  decide

end AnniCache
